import Mathlib

/-!
Verification of the firevault validation/transformation engine.

The definitions below are a shallow embedding of the engine found in the
repository sources: the `validator` (`validate`, `validateFields`,
`processField`, `applyRules`, `applyTransformation`, `applyValidation`,
`processFinalValue`, `processMapValue`, `processSliceValue`, `formatErr`,
`shouldSkipField`, `cleanRules`, `parseTag`, registration functions), the
built-in rules (`built_in.go`), the field error (`field_error.go` /
`fieldError` with `rule`/`param` accessors), and the struct metadata cache
(`cache.go`).

Go runtime values are modelled by the inductive `GoVal`; `reflect.Kind` and
`reflect.Type` by `GoKind` and `GoType`.  Go maps keyed by strings are
modelled as association lists with `assocSet` giving the map-update
(replace) semantics.  Mutually recursive traversal functions take a `fuel`
argument because a registered transformation may return an arbitrary value,
so the Go recursion is not structurally decreasing; `none` marks fuel
exhaustion and `some` carries the Go result.
-/

set_option autoImplicit false

namespace Firevault

/-! ### Go values, kinds and types -/

mutual

/-- A Go runtime value, as seen through `reflect`.  `vPtr none` is a nil
pointer, `vSlice none` / `vMap none` are nil slices/maps, `vTime` stands for
a `time.Time` (kind `Struct`, type `time.Time`), and `vInvalid` is the zero
`reflect.Value` (as produced e.g. by `Elem()` on a nil pointer). -/
inductive GoVal where
  | vStr (s : String)
  | vInt (n : Int)
  | vBool (b : Bool)
  | vTime (t : Int)
  | vPtr (p : Option GoVal)
  | vSlice (xs : Option GoVals)
  | vMap (m : Option GoEntries)
  | vStruct (tname : String) (fields : GoFields)
  | vChan
  | vFunc
  | vInvalid

/-- A list of Go values (slice elements). -/
inductive GoVals where
  | nil
  | cons (v : GoVal) (rest : GoVals)

/-- Entries of a Go map with string keys. -/
inductive GoEntries where
  | nil
  | cons (key : String) (v : GoVal) (rest : GoEntries)

/-- Declared fields of a Go struct: field name, `firevault` tag, value. -/
inductive GoFields where
  | nil
  | cons (name : String) (tag : String) (v : GoVal) (rest : GoFields)

end

mutual

/-- Structural equality of Go values; models Go's `==` on `interface\x7b\x7d`
values as the engine uses it to compare a field's old and new value. -/
def beqVal : GoVal → GoVal → Bool
  | .vStr a, .vStr b => a == b
  | .vInt a, .vInt b => a == b
  | .vBool a, .vBool b => a == b
  | .vTime a, .vTime b => a == b
  | .vPtr none, .vPtr none => true
  | .vPtr (some a), .vPtr (some b) => beqVal a b
  | .vSlice none, .vSlice none => true
  | .vSlice (some a), .vSlice (some b) => beqVals a b
  | .vMap none, .vMap none => true
  | .vMap (some a), .vMap (some b) => beqEntries a b
  | .vStruct n a, .vStruct m b => n == m && beqFields a b
  | .vChan, .vChan => true
  | .vFunc, .vFunc => true
  | .vInvalid, .vInvalid => true
  | _, _ => false
  termination_by structural a => a

/-- Structural equality of Go value lists. -/
def beqVals : GoVals → GoVals → Bool
  | .nil, .nil => true
  | .cons a as, .cons b bs => beqVal a b && beqVals as bs
  | _, _ => false
  termination_by structural a => a

/-- Structural equality of Go map entries. -/
def beqEntries : GoEntries → GoEntries → Bool
  | .nil, .nil => true
  | .cons k a as, .cons l b bs => k == l && beqVal a b && beqEntries as bs
  | _, _ => false
  termination_by structural a => a

/-- Structural equality of Go struct fields. -/
def beqFields : GoFields → GoFields → Bool
  | .nil, .nil => true
  | .cons n t a as, .cons m u b bs => n == m && t == u && beqVal a b && beqFields as bs
  | _, _ => false
  termination_by structural a => a

end

instance : BEq GoVal := ⟨beqVal⟩
instance : BEq GoFields := ⟨beqFields⟩

/-- Model of `reflect.Kind`, restricted to the kinds the modelled values can take. -/
inductive GoKind where
  | invalid
  | boolK
  | intK
  | stringK
  | ptrK
  | sliceK
  | mapK
  | structK
  | chanK
  | funcK
  | interfaceK
  deriving DecidableEq

/-- Model of `reflect.Type`, coarsened to what the engine inspects: it distinguishes
`time.Time` from other structs and distinguishes struct types by name. -/
inductive GoType where
  | tbool
  | tint
  | tstring
  | tptr
  | tslice
  | tmap
  | tstruct (tname : String)
  | ttime
  | tchan
  | tfunc
  | tinvalid
  deriving DecidableEq

/-- Computes `reflect.Value.Kind()` for the modelled values. -/
def kindOf : GoVal → GoKind
  | .vStr _ => .stringK
  | .vInt _ => .intK
  | .vBool _ => .boolK
  | .vTime _ => .structK
  | .vPtr _ => .ptrK
  | .vSlice _ => .sliceK
  | .vMap _ => .mapK
  | .vStruct _ _ => .structK
  | .vChan => .chanK
  | .vFunc => .funcK
  | .vInvalid => .invalid

/-- Computes `reflect.Value.Type()` for the modelled values. -/
def typeOf : GoVal → GoType
  | .vStr _ => .tstring
  | .vInt _ => .tint
  | .vBool _ => .tbool
  | .vTime _ => .ttime
  | .vPtr _ => .tptr
  | .vSlice _ => .tslice
  | .vMap _ => .tmap
  | .vStruct tname _ => .tstruct tname
  | .vChan => .tchan
  | .vFunc => .tfunc
  | .vInvalid => .tinvalid

/-- Computes `reflect.Value.IsNil()` (on the kinds where Go defines it). -/
def isNilVal : GoVal → Bool
  | .vPtr none => true
  | .vSlice none => true
  | .vMap none => true
  | _ => false

/-- Computes `reflect.Value.IsValid()`. -/
def isValidVal : GoVal → Bool
  | .vInvalid => false
  | _ => true

mutual

/-- Computes `reflect.Value.IsZero()`: a struct is zero iff all its fields are. -/
def isZeroVal : GoVal → Bool
  | .vStr s => s = ""
  | .vInt n => n = 0
  | .vBool b => b = false
  | .vTime t => t = 0
  | .vPtr p => p.isNone
  | .vSlice xs => xs.isNone
  | .vMap m => m.isNone
  | .vStruct _ fields => isZeroFields fields
  | .vChan => true
  | .vFunc => true
  | .vInvalid => true
  termination_by structural v => v

/-- All struct fields are zero values. -/
def isZeroFields : GoFields → Bool
  | .nil => true
  | .cons _ _ v rest => isZeroVal v && isZeroFields rest
  termination_by structural flds => flds

end

/-- Function `hasValue` from `built_in.go`: nil-check for slices, maps, pointers and
interfaces; otherwise `IsValid && !IsZero`. -/
def hasValue (fieldKind : GoKind) (fieldValue : GoVal) : Bool :=
  match fieldKind with
  | .sliceK | .mapK | .ptrK | .interfaceK => !isNilVal fieldValue
  | _ => isValidVal fieldValue && !isZeroVal fieldValue

/-- Function `isSupported` from `built_in.go`: rejects invalid, channel and function
kinds. -/
def isSupported (fieldKind : GoKind) : Bool :=
  match fieldKind with
  | .invalid | .chanK | .funcK => false
  | _ => true

end Firevault

namespace Firevault

/-! ### Field scope, field error, rule registry -/

/-- Model of `fieldScope` (field_scope source): the per-field execution
context handed to rule implementations, tracking the current value together
with its kind and type, the emitted and declared names and paths, the
currently executing rule and its parameter, and the parsed rule chain. -/
structure fieldScope where
  strct : GoVal
  field : String
  structField : String
  displayField : String := ""
  path : String := ""
  structPath : String := ""
  value : GoVal
  kind : GoKind
  typ : GoType
  rule : String := ""
  param : String := ""
  dive : Bool := false
  rules : List String := []

/-- Model of `fieldError` (field_error source): the structured validation
error carrying the failing field's names, paths, value with kind/type, and
the failing rule name and parameter (`Rule()` and `Param()` accessors read
the `rule` and `param` components). -/
structure fieldError where
  field : String
  structField : String
  displayField : String
  path : String
  structPath : String
  value : GoVal
  kind : GoKind
  typ : GoType
  rule : String := ""
  param : String := ""

/-- Errors produced by the engine: either a structured `fieldError` or a
plain Go `error` carrying only a message (from `errors.New`/`fmt.Errorf` or
returned by a user rule or formatter). -/
inductive VErr where
  | fieldErr (fe : fieldError)
  | simple (msg : String)

/-- Model of `ValidationFn`; the Go function additionally receives a
`context.Context`, which the engine merely passes through, so it is dropped
here.  A returned Go `error` is the `Except.error` case. -/
def ValidationFn : Type := fieldScope → Except String Bool

/-- Model of `TransformationFn`; as with `ValidationFn` the pass-through
context argument is dropped. -/
def TransformationFn : Type := fieldScope → Except String GoVal

/-- Model of `ErrorFormatterFn`: `none` models a nil returned error. -/
def ErrorFormatterFn : Type := fieldError → Option String

/-- Wrapper `valFnWrapper`: validation function plus its `runOnNil` flag. -/
structure valFnWrapper where
  fn : ValidationFn
  runOnNil : Bool

/-- Wrapper `transFnWrapper`: transformation function plus `runOnNil`. -/
structure transFnWrapper where
  fn : TransformationFn
  runOnNil : Bool

/-- Model of the `validator` struct: the registries of validations,
transformations and error formatters.  Go's `map[string]...` is modelled as
an association list updated by `assocSet`. -/
structure validator where
  validations : List (String × valFnWrapper)
  transformations : List (String × transFnWrapper)
  errFormatters : List ErrorFormatterFn

/-- Go map update `m[k] = v`: replaces the binding if the key is present,
otherwise appends it. -/
def assocSet {α : Type} : List (String × α) → String → α → List (String × α)
  | [], k, v => [(k, v)]
  | (a, b) :: t, k, v => if a = k then (k, v) :: t else (a, b) :: assocSet t k v

/-- Constant `restrictedTagChars` from `built_in.go`. -/
def restrictedTagChars : String := ".[],|=+()`~!@#$%^&*\\\"/?<>\x7b\x7d"

/-- Constant `restrictedRules` from `built_in.go`: the names of the built-in
structural rules, reserved against user registration. -/
def restrictedRules : List String :=
  ["dive", "omitempty", "omitempty_create", "omitempty_update", "omitempty_validate"]

/-- Models `strings.ContainsAny(s, chars)`. -/
def containsAny (s chars : String) : Bool :=
  s.toList.any (fun c => chars.toList.contains c)

/-- Prefix test on character lists (basis for `strings.HasPrefix`). -/
def isPre : List Char → List Char → Bool
  | [], _ => true
  | _ :: _, [] => false
  | a :: as, b :: bs => a == b && isPre as bs

/-- Models `strings.HasPrefix(s, p)`. -/
def strStartsWith (s p : String) : Bool :=
  isPre p.toList s.toList

/-- Models `strings.HasSuffix(s, p)`. -/
def strEndsWith (s p : String) : Bool :=
  isPre p.toList.reverse s.toList.reverse

/-- Models `strings.TrimPrefix(s, p)`. -/
def strTrimPre (s p : String) : String :=
  if strStartsWith s p then String.mk (s.toList.drop p.toList.length) else s

/-- Substring search on character lists. -/
def isSub (sub : List Char) : List Char → Bool
  | [] => isPre sub []
  | c :: rest => isPre sub (c :: rest) || isSub sub rest

/-- Models `strings.Contains(s, sub)`. -/
def containsSubstr (s sub : String) : Bool :=
  isSub sub.toList s.toList

/-- Splits a character list on a separator character. -/
def charSplit (sep : Char) : List Char → List (List Char)
  | [] => [[]]
  | c :: rest =>
    let parts := charSplit sep rest
    if c == sep then [] :: parts
    else
      match parts with
      | [] => [[c]]
      | p :: ps => (c :: p) :: ps

/-- Models `strings.Split(s, sep)` for a one-character separator. -/
def strSplit (s : String) (sep : Char) : List String :=
  (charSplit sep s.toList).map String.mk

/-- Models `strings.TrimSpace(s)`. -/
def strTrimSpace (s : String) : String :=
  String.mk (((s.toList.dropWhile Char.isWhitespace).reverse.dropWhile
    Char.isWhitespace).reverse)

/-- Digit accumulator of the decimal parser. -/
def digitsToNat (acc : Nat) : List Char → Option Nat
  | [] => some acc
  | c :: rest =>
    if c.isDigit then digitsToNat (acc * 10 + (c.toNat - 48)) rest else none

/-- Decimal integer parser (basis of the `asInt` model). -/
def parseIntStr (s : String) : Option Int :=
  match s.toList with
  | [] => none
  | c :: rest =>
    if c == '-' then
      match rest with
      | [] => none
      | _ => (digitsToNat 0 rest).map (fun n => -(n : Int))
    else (digitsToNat 0 (c :: rest)).map (fun n => (n : Int))

/-- Method `registerValidation` of the validator; a nil Go function is
modelled by `none`. -/
def registerValidation (v : validator) (name : String)
    (validation : Option ValidationFn) (builtIn : Bool) (runOnNil : Bool) :
    Except String validator :=
  if name.length = 0 then
    .error "firevault: validation function name cannot be empty"
  else if !builtIn && (restrictedRules.contains name || containsAny name restrictedTagChars) then
    .error "firevault: validation rule contains restricted characters or is the same as a built-in rule"
  else
    match validation with
    | none => .error ("firevault: validation function " ++ name ++ " cannot be empty")
    | some f => .ok { v with validations := assocSet v.validations name ⟨f, runOnNil⟩ }

/-- Method `registerTransformation` of the validator. -/
def registerTransformation (v : validator) (name : String)
    (transformation : Option TransformationFn) (builtIn : Bool) (runOnNil : Bool) :
    Except String validator :=
  if name.length = 0 then
    .error "firevault: transformation function name cannot be empty"
  else if !builtIn && (restrictedRules.contains name || containsAny name restrictedTagChars) then
    .error "firevault: transformation rule contains restricted characters or is the same as a built-in rule"
  else
    match transformation with
    | none => .error ("firevault: transformation function " ++ name ++ " cannot be empty")
    | some f => .ok { v with transformations := assocSet v.transformations name ⟨f, runOnNil⟩ }

/-- Method `registerErrorFormatter` of the validator. -/
def registerErrorFormatter (v : validator) (errFormatter : Option ErrorFormatterFn) :
    Except String validator :=
  match errFormatter with
  | none => .error "firevault: error formatter function cannot be empty"
  | some f => .ok { v with errFormatters := v.errFormatters ++ [f] }

/-! ### Built-in rules -/

/-- Number of elements of a Go value list. -/
def lenVals : GoVals → Int
  | .nil => 0
  | .cons _ rest => 1 + lenVals rest

/-- Number of entries of a Go map. -/
def lenEntries : GoEntries → Int
  | .nil => 0
  | .cons _ _ rest => 1 + lenEntries rest

/-- Length of a Go value as `Len()` reports it on strings, slices, maps. -/
def goLen : GoVal → Int
  | .vStr s => s.length
  | .vSlice (some xs) => lenVals xs
  | .vSlice none => 0
  | .vMap (some es) => lenEntries es
  | .vMap none => 0
  | _ => 0

/-- Numeric content of an integer Go value (`Value().Int()`). -/
def goInt : GoVal → Int
  | .vInt n => n
  | _ => 0

/-- Time content of a `time.Time` Go value. -/
def goTime : GoVal → Int
  | .vTime t => t
  | _ => 0

/-- String content of a Go value; `reflect.Value.String()` yields the
underlying string only for string kinds (claims never rely on the
placeholder it produces otherwise, modelled as the empty string). -/
def goString : GoVal → String
  | .vStr s => s
  | _ => ""

/-- Modelled from the spec: the numeric-parameter parser (`asInt`, whose
defining file is not among the sources) parses the rule's decimal string
parameter and fails on a malformed one. -/
def asInt (s : String) : Except String Int :=
  match parseIntStr s with
  | some i => .ok i
  | none => .error ("firevault: unable to parse param - " ++ s)

/-- Modelled from the spec: the time-parameter parser (`asTime`, whose
defining file is not among the sources) parses the rule's parameter into the
time model used by `GoVal.vTime`. -/
def asTime (s : String) : Except String Int :=
  match parseIntStr s with
  | some i => .ok i
  | none => .error ("firevault: unable to parse param - " ++ s)

/-- Built-in validation `required` (`validateRequired`). -/
def validateRequired : ValidationFn := fun fs =>
  .ok (hasValue fs.kind fs.value)

/-- Modelled from the spec: the `emailRegex` helper is not among the
sources; the spec describes a permissive RFC-5322-like pattern.  Modelled as
a simple shape check (nonempty local part, dotted nonempty domain, no
spaces); no claim depends on the exact pattern. -/
def emailRegexMatch (s : String) : Bool :=
  match strSplit s '@' with
  | [locPart, domain] =>
    locPart != "" && domain != "" &&
      (strSplit domain '.').length ≥ 2 &&
      (strSplit domain '.').all (fun p => p != "") &&
      !s.toList.contains ' '
  | _ => false

/-- Built-in validation `email` (`validateEmail`). -/
def validateEmail : ValidationFn := fun fs =>
  .ok (emailRegexMatch (goString fs.value))

/-- Built-in validation `max` (`validateMax`): requires a parameter; length
bound for strings/slices/maps, value bound for integers, `Before` for
time-typed structs, error otherwise. -/
def validateMax : ValidationFn := fun fs =>
  if fs.param = "" then
    .error ("firevault: provide a max param - " ++ fs.path)
  else
    match fs.kind with
    | .stringK | .sliceK | .mapK =>
      match asInt fs.param with
      | .error e => .error e
      | .ok i => .ok (goLen fs.value ≤ i)
    | .intK =>
      match asInt fs.param with
      | .error e => .error e
      | .ok i => .ok (goInt fs.value ≤ i)
    | .structK =>
      if fs.typ = .ttime then
        match asTime fs.param with
        | .error _ => .ok false
        | .ok mx => .ok (goTime fs.value < mx)
      else
        .error ("firevault: invalid field type - " ++ fs.path)
    | _ => .error ("firevault: invalid field type - " ++ fs.path)

/-- Built-in validation `min` (`validateMin`). -/
def validateMin : ValidationFn := fun fs =>
  if fs.param = "" then
    .error ("firevault: provide a min param - " ++ fs.path)
  else
    match fs.kind with
    | .stringK | .sliceK | .mapK =>
      match asInt fs.param with
      | .error e => .error e
      | .ok i => .ok (goLen fs.value ≥ i)
    | .intK =>
      match asInt fs.param with
      | .error e => .error e
      | .ok i => .ok (goInt fs.value ≥ i)
    | .structK =>
      if fs.typ = .ttime then
        match asTime fs.param with
        | .error e => .error e
        | .ok mn => .ok (goTime fs.value > mn)
      else
        .error ("firevault: invalid field type - " ++ fs.path)
    | _ => .error ("firevault: invalid field type - " ++ fs.path)

/-- Built-in transformation `uppercase`: pass-through on non-strings. -/
def transformUppercase : TransformationFn := fun fs =>
  if fs.kind != .stringK then .ok fs.value
  else .ok (.vStr (String.mk ((goString fs.value).toList.map Char.toUpper)))

/-- Built-in transformation `lowercase`: pass-through on non-strings. -/
def transformLowercase : TransformationFn := fun fs =>
  if fs.kind != .stringK then .ok fs.value
  else .ok (.vStr (String.mk ((goString fs.value).toList.map Char.toLower)))

/-- Built-in transformation `trim_space`: pass-through on non-strings. -/
def transformTrimSpace : TransformationFn := fun fs =>
  if fs.kind != .stringK then .ok fs.value
  else .ok (.vStr (strTrimSpace (goString fs.value)))

/-- Map `builtInValidators` from `built_in.go`. -/
def builtInValidators : List (String × ValidationFn) :=
  [("required", validateRequired),
   ("required_create", validateRequired),
   ("required_update", validateRequired),
   ("required_validate", validateRequired),
   ("email", validateEmail),
   ("max", validateMax),
   ("min", validateMin)]

/-- Map `builtInTransformators` from `built_in.go`. -/
def builtInTransformators : List (String × TransformationFn) :=
  [("uppercase", transformUppercase),
   ("lowercase", transformLowercase),
   ("trim_space", transformTrimSpace)]

/-- Function `newValidator`: registers the built-ins; validations whose name
contains `required` run on nil values; all built-in transformations have
`runOnNil = false`.  Registration errors are discarded as in the source. -/
def newValidator : validator :=
  let v : validator := { validations := [], transformations := [], errFormatters := [] }
  let v := builtInValidators.foldl
    (fun v p =>
      let runOnNil := containsSubstr p.1 "required"
      match registerValidation v p.1 (some p.2) true runOnNil with
      | .ok v' => v'
      | .error _ => v) v
  builtInTransformators.foldl
    (fun v p =>
      match registerTransformation v p.1 (some p.2) true false with
      | .ok v' => v'
      | .error _ => v) v

end Firevault

namespace Firevault

/-! ### Tag parsing and the rule-chain interpreter -/

/-- Options `validationOpts` used during validation; `method` is the
`methodType` string (`"validate"`, `"create"` or `"update"`). -/
structure validationOpts where
  method : String
  skipValidation : Bool := false
  emptyFieldsAllowed : List String := []
  modifyOriginal : Bool := false

/-- Method `parseTag`: split the tag on commas and trim each piece. -/
def parseTag (tag : String) : List String :=
  (strSplit tag ',').map strTrimSpace

/-- Method `getFieldPath`: dot-separated path extension. -/
def getFieldPath (path fieldName : String) : String :=
  if path = "" then fieldName else path ++ "." ++ fieldName

/-- Pass of `getDisplayName` for the pattern of a lowercase letter followed
by an uppercase letter: a space is inserted between the two. -/
def splitLowerUpper : List Char → List Char
  | [] => []
  | [c] => [c]
  | a :: b :: rest =>
    if a.isLower && b.isUpper then a :: ' ' :: splitLowerUpper (b :: rest)
    else a :: splitLowerUpper (b :: rest)

/-- Pass of `getDisplayName` for an uppercase letter followed by a digit. -/
def splitUpperDigit : List Char → List Char
  | [] => []
  | [c] => [c]
  | a :: b :: rest =>
    if a.isUpper && b.isDigit then a :: ' ' :: splitUpperDigit (b :: rest)
    else a :: splitUpperDigit (b :: rest)

/-- Pass of `getDisplayName` for a lowercase letter followed by a digit. -/
def splitLowerDigit : List Char → List Char
  | [] => []
  | [c] => [c]
  | a :: b :: rest =>
    if a.isLower && b.isDigit then a :: ' ' :: splitLowerDigit (b :: rest)
    else a :: splitLowerDigit (b :: rest)

/-- Method `getDisplayName`: underscores become spaces, then camel/pascal
boundaries are split, then (only if a digit occurs) letter/digit boundaries
are split. -/
def getDisplayName (fieldName : String) : String :=
  let fn := String.mk (fieldName.toList.map (fun c => if c == '_' then ' ' else c))
  let fn := String.mk (splitLowerUpper fn.toList)
  if fn.toList.any Char.isDigit then
    let fn := String.mk (splitUpperDigit fn.toList)
    String.mk (splitLowerDigit fn.toList)
  else fn

/-- Method `cleanRules`: drops the name entry (index 0) and the structural
`omitempty`, `omitempty_create`, `omitempty_update`, `omitempty_validate`
and `dive` entries. -/
def cleanRules (rules : List String) : List String :=
  rules.enum.filterMap (fun p =>
    if p.1 != 0 && p.2 != "omitempty" && p.2 != "omitempty_create" &&
        p.2 != "omitempty_update" && p.2 != "omitempty_validate" &&
        p.2 != "dive" then
      some p.2
    else none)

/-- Method `shouldSkipField`: skip when an `omitempty` rule (plain or for
the active method) is present, the path is not allow-listed and the value is
absent/zero. -/
def shouldSkipField (fs : fieldScope) (rules : List String) (opts : validationOpts) : Bool :=
  let omitEmptyMethod := "omitempty_" ++ opts.method
  let shouldOmitEmpty := rules.contains "omitempty" || rules.contains omitEmptyMethod
  if shouldOmitEmpty && !(opts.emptyFieldsAllowed.contains fs.path) then
    !hasValue fs.kind fs.value
  else
    false

/-- Method `validateFieldType`: unsupported kinds abort with an error. -/
def validateFieldType (fieldKind : GoKind) (fieldPath : String) : Except VErr Unit :=
  if !isSupported fieldKind then
    .error (.simple ("firevault: unsupported field type - " ++ fieldPath))
  else
    .ok ()

/-- Loop body of `formatErr`: first formatter returning a non-nil error
wins; if none does, the structured field error itself is returned. -/
def formatErrGo : List ErrorFormatterFn → fieldError → VErr
  | [], fe => .fieldErr fe
  | f :: rest, fe =>
    match f fe with
    | some err => .simple err
    | none => formatErrGo rest fe

/-- Method `formatErr` of the validator. -/
def formatErr (v : validator) (fe : fieldError) : VErr :=
  formatErrGo v.errFormatters fe

/-- Splits a character list at the first `=`; everything before and after
it (the whole list and an empty remainder when `=` is absent). -/
def cutEqGo : List Char → List Char × List Char
  | [] => ([], [])
  | c :: rest =>
    if c == '=' then ([], rest)
    else
      let p := cutEqGo rest
      (c :: p.1, p.2)

/-- Models `strings.Cut(s, "=")`: the part before the first `=` and the
part after it. -/
def cutEq (s : String) : String × String :=
  let p := cutEqGo s.toList
  (String.mk p.1, String.mk p.2)

/-- Method `applyTransformation`: strips the `transform=` marker, records
the rule name on the scope and the error, looks the transformation up
(unknown name is an error through `formatErr`), skips zero values unless
`runOnNil`, propagates a returned error verbatim, and otherwise replaces the
scope's value (with its kind and type) whenever the returned value differs
from the current one.  No comparison of the returned value's type with the
previous one is made. -/
def applyTransformation (v : validator) (fs : fieldScope) (fe : fieldError)
    (rule : String) : Except VErr fieldScope :=
  let transName := strTrimPre rule "transform="
  let fe := { fe with rule := transName }
  let fs := { fs with rule := transName }
  match v.transformations.lookup transName with
  | none => .error (formatErr v fe)
  | some transformation =>
    if !hasValue fs.kind fs.value && !transformation.runOnNil then
      .ok fs
    else
      match transformation.fn fs with
      | .error err => .error (.simple err)
      | .ok newValue =>
        if !beqVal newValue fs.value then
          .ok { fs with value := newValue, kind := kindOf newValue, typ := typeOf newValue }
        else
          .ok fs

/-- Method `applyValidation`: cuts the rule at `=` into name and parameter,
records them on the scope and the error (the source assigns the rule name,
not the parameter, to the error's `param` component), looks the validation
up (unknown name is an error through `formatErr`), skips zero values unless
`runOnNil`, propagates a returned error verbatim, and turns a `false`
verdict into the formatted field error. -/
def applyValidation (v : validator) (fs : fieldScope) (fe : fieldError)
    (rule : String) : Except VErr fieldScope :=
  let cut := cutEq rule
  let rule := cut.1
  let param := cut.2
  let fs := { fs with rule := rule, param := param }
  let fe := { fe with rule := rule, param := rule }
  match v.validations.lookup rule with
  | none => .error (formatErr v fe)
  | some validation =>
    if !hasValue fs.kind fs.value && !validation.runOnNil then
      .ok fs
    else
      match validation.fn fs with
      | .error err => .error (.simple err)
      | .ok valid =>
        if !valid then .error (formatErr v fe) else .ok fs

/-- Construction of the `fieldError` snapshot that `applyRules` takes of
the scope before running each rule. -/
def feSnapshot (fs : fieldScope) : fieldError :=
  { field := fs.field, structField := fs.structField,
    displayField := fs.displayField, path := fs.path,
    structPath := fs.structPath, value := fs.value,
    kind := fs.kind, typ := fs.typ }

/-- Loop body of `applyRules`: rules whose method suffix does not match the
active method are skipped; a fresh `fieldError` snapshot of the scope is
built for each rule; `transform=`-marked rules go to `applyTransformation`,
the rest to `applyValidation`; the first error aborts the chain. -/
def applyRulesGo (v : validator) (method : String) :
    fieldScope → List String → Except VErr fieldScope
  | fs, [] => .ok fs
  | fs, rule :: rest =>
    if method == "validate" && (strEndsWith rule "_create" || strEndsWith rule "_update") then
      applyRulesGo v method fs rest
    else if method == "create" && (strEndsWith rule "_validate" || strEndsWith rule "_update") then
      applyRulesGo v method fs rest
    else if method == "update" && (strEndsWith rule "_create" || strEndsWith rule "_validate") then
      applyRulesGo v method fs rest
    else
      let fe : fieldError := feSnapshot fs
      if strStartsWith rule "transform=" then
        match applyTransformation v fs fe rule with
        | .error e => .error e
        | .ok fs' => applyRulesGo v method fs' rest
      else
        match applyValidation v fs fe rule with
        | .error e => .error e
        | .ok fs' => applyRulesGo v method fs' rest

/-- Method `applyRules`: run the scope's parsed rule chain in order. -/
def applyRules (v : validator) (fs : fieldScope) (method : String) :
    Except VErr fieldScope :=
  applyRulesGo v method fs fs.rules

end Firevault

namespace Firevault

/-! ### Recursive traversal -/

mutual

/-- Value emitted into the output keyed mapping (`interface\x7b\x7d` in the
source): a Go value passed through, a nested keyed mapping, or a list. -/
inductive OutVal where
  | prim (v : GoVal)
  | omap (m : OutMapL)
  | olist (l : OutListL)

/-- Entries of an output keyed mapping, in field iteration order. -/
inductive OutMapL where
  | nil
  | cons (k : String) (v : OutVal) (rest : OutMapL)

/-- Elements of an output list. -/
inductive OutListL where
  | nil
  | cons (v : OutVal) (rest : OutListL)

end

/-- Construction of a field's scope at the start of `processField`: names,
display name, the tag-derived rename (a nonempty first tag entry), and the
extended paths. -/
def buildFieldScope (strct : GoVal) (name tag : String) (value : GoVal)
    (path structPath : String) : fieldScope :=
  let fs : fieldScope :=
    { strct := strct, field := name, structField := name,
      displayField := getDisplayName name,
      value := value, kind := kindOf value, typ := typeOf value }
  let rules := parseTag tag
  let fs := match rules with
    | r :: _ => if r != "" then { fs with field := r } else fs
    | [] => fs
  { fs with path := getFieldPath path fs.field,
            structPath := getFieldPath structPath fs.structField }

/-- The five mutually recursive traversal methods of the validator, at one
fuel level: fuel is consumed on every nested call, and the level-zero
functions return `none` (fuel exhaustion).  Bundling them lets the family be
defined by plain structural recursion on the fuel (`engine`), so that it
reduces definitionally. -/
structure EngineFns where
  validateFields : validator → GoVal → GoFields → String → String →
    validationOpts → Option (Except VErr (OutMapL × GoFields))
  processField : validator → GoVal → String → String → GoVal → String → String →
    validationOpts → Option (Except VErr (Option (String × OutVal) × GoVal))
  processFinalValue : validator → fieldScope → validationOpts →
    Option (Except VErr (OutVal × GoVal))
  processMapValue : validator → fieldScope → GoEntries → validationOpts →
    Option (Except VErr (OutMapL × GoEntries))
  processSliceValue : validator → fieldScope → GoVals → Nat → validationOpts →
    Option (Except VErr (OutListL × GoVals))

/-- The exhausted-fuel level: every function is undefined. -/
def engineZero : EngineFns where
  validateFields := fun _ _ _ _ _ _ => none
  processField := fun _ _ _ _ _ _ _ _ => none
  processFinalValue := fun _ _ _ => none
  processMapValue := fun _ _ _ _ => none
  processSliceValue := fun _ _ _ _ _ => none

/-- One level of the traversal: the bodies of `validateFields`,
`processField`, `processFinalValue`, `processMapValue` and
`processSliceValue`, with every nested call going through the
previous level `prev`. -/
def engineStep (prev : EngineFns) : EngineFns where
  /- Method `validateFields`: iterate the struct's declared fields in order,
  processing each; the first error aborts with no mapping.  Non-skipped
  fields land in the output mapping under their resolved name.  The returned
  `GoFields` is the struct content after any opted-in write-backs. -/
  validateFields := fun v strct flds path structPath opts =>
    match flds with
    | .nil => some (.ok (.nil, .nil))
    | .cons name tag value rest =>
      match prev.processField v strct name tag value path structPath opts with
      | none => none
      | some (.error e) => some (.error e)
      | some (.ok (entry, value')) =>
        match prev.validateFields v strct rest path structPath opts with
        | none => none
        | some (.error e) => some (.error e)
        | some (.ok (m, rest')) =>
          let m' := match entry with
            | some (n, fv) => OutMapL.cons n fv m
            | none => m
          some (.ok (m', .cons name tag value' rest'))
  /- Method `processField`: fields without a tag or with the ignore tag are
  dropped; otherwise the scope is built, the tag parsed (first entry
  renames), paths computed, the kind checked, the omitempty skip applied,
  `dive` and the cleaned rule chain recorded, a non-nil pointer
  dereferenced, the rule chain applied unless validation is skipped (with
  the opted-in write-back of a changed value), and the final emitted value
  computed.  The second result component is the field's value as left in
  the original struct. -/
  processField := fun v strct name tag value path structPath opts =>
    if tag = "" || tag = "-" then some (.ok (none, value))
    else
      let fs := buildFieldScope strct name tag value path structPath
      let rules := parseTag tag
      match validateFieldType fs.kind fs.path with
      | .error e => some (.error e)
      | .ok _ =>
        if shouldSkipField fs rules opts then some (.ok (none, value))
        else
          let fs := { fs with dive := rules.contains "dive", rules := cleanRules rules }
          let fs := match fs.kind, fs.value with
            | .ptrK, .vPtr (some inner) =>
              { fs with value := inner, kind := kindOf inner, typ := typeOf inner }
            | _, _ => fs
          let ruled : Except VErr (fieldScope × Bool) :=
            if !opts.skipValidation then
              match applyRules v fs opts.method with
              | .error e => .error e
              | .ok fs' =>
                -- the write-back fires when the scope's value no longer is the
                -- original field value (dereference or transformation)
                .ok (fs', opts.modifyOriginal && !beqVal fs'.value value)
            else .ok (fs, false)
          match ruled with
          | .error e => some (.error e)
          | .ok (fsF, setDone) =>
            match prev.processFinalValue v fsF opts with
            | none => none
            | some (.error e) => some (.error e)
            | some (.ok (finalValue, vAfter)) =>
              -- content the original field is left with: the written-back scope
              -- value (later nested updates were then detached), else the value
              -- updated in place through aliasing when write-back is opted in,
              -- else untouched
              let updated :=
                if setDone then fsF.value
                else if opts.modifyOriginal && !opts.skipValidation then vAfter
                else value
              some (.ok (some (fsF.field, finalValue), updated))
  /- Method `processFinalValue`: time values and non-dived maps/slices are
  emitted as they are; nested structs are validated recursively; dived maps
  and slices are rebuilt element by element. -/
  processFinalValue := fun v fs opts =>
    match fs.kind with
    | .structK =>
      if fs.typ = .ttime then some (.ok (.prim fs.value, fs.value))
      else
        match fs.value with
        | .vStruct tname flds =>
          match prev.validateFields v fs.value flds fs.path fs.structPath opts with
          | none => none
          | some (.error e) => some (.error e)
          | some (.ok (m, flds')) => some (.ok (.omap m, .vStruct tname flds'))
        | _ => some (.ok (.prim fs.value, fs.value))
    | .mapK =>
      if !fs.dive then some (.ok (.prim fs.value, fs.value))
      else
        match fs.value with
        | .vMap (some entries) =>
          match prev.processMapValue v fs entries opts with
          | none => none
          | some (.error e) => some (.error e)
          | some (.ok (m, entries')) => some (.ok (.omap m, .vMap (some entries')))
        | _ =>
          -- a nil map iterates zero times, giving an empty mapping
          some (.ok (.omap .nil, fs.value))
    | .sliceK =>
      if !fs.dive then some (.ok (.prim fs.value, fs.value))
      else
        match fs.value with
        | .vSlice (some xs) =>
          match prev.processSliceValue v fs xs 0 opts with
          | none => none
          | some (.error e) => some (.error e)
          | some (.ok (outs, xs')) => some (.ok (.olist outs, .vSlice (some xs')))
        | _ =>
          -- a nil slice has length zero, giving an empty list
          some (.ok (.olist .nil, fs.value))
    | _ => some (.ok (.prim fs.value, fs.value))
  /- Method `processMapValue`: each entry gets a synthetic scope named by its
  key with an extended path (pointer values dereferenced) and is sent
  through `processFinalValue`; entries are never written back into the
  map. -/
  processMapValue := fun v fs entries opts =>
    match entries with
    | .nil => some (.ok (.nil, .nil))
    | .cons key val rest =>
      let val' := match val with
        | .vPtr (some inner) => inner
        | .vPtr none => .vInvalid
        | _ => val
      let newFs : fieldScope :=
        { strct := fs.strct, field := key, structField := key,
          path := fs.path ++ "." ++ key,
          structPath := fs.structPath ++ "." ++ key,
          value := val', kind := kindOf val', typ := typeOf val' }
      match prev.processFinalValue v newFs opts with
      | none => none
      | some (.error e) => some (.error e)
      | some (.ok (pv, _)) =>
        match prev.processMapValue v fs rest opts with
        | none => none
        | some (.error e) => some (.error e)
        | some (.ok (m, rest')) =>
          some (.ok (.cons key pv m, .cons key val rest'))
  /- Method `processSliceValue`: each element gets a synthetic scope named by
  its index with an extended path (pointer elements dereferenced) and is
  sent through `processFinalValue`; elements alias the original backing
  array, so nested write-backs land in the slice when opted in. -/
  processSliceValue := fun v fs xs idx opts =>
    match xs with
    | .nil => some (.ok (.nil, .nil))
    | .cons val rest =>
      let valAndPtr : GoVal × Bool := match val with
        | .vPtr (some inner) => (inner, true)
        | .vPtr none => (.vInvalid, true)
        | _ => (val, false)
      let newFs : fieldScope :=
        { strct := fs.strct,
          field := "[" ++ toString idx ++ "]",
          structField := "[" ++ toString idx ++ "]",
          path := fs.path ++ "[" ++ toString idx ++ "]",
          structPath := fs.structPath ++ "[" ++ toString idx ++ "]",
          value := valAndPtr.1, kind := kindOf valAndPtr.1, typ := typeOf valAndPtr.1 }
      match prev.processFinalValue v newFs opts with
      | none => none
      | some (.error e) => some (.error e)
      | some (.ok (pv, elemAfter)) =>
        match prev.processSliceValue v fs rest (idx + 1) opts with
        | none => none
        | some (.error e) => some (.error e)
        | some (.ok (outs, rest')) =>
          let elemUpd :=
            if opts.modifyOriginal then
              match val with
              | .vPtr (some _) => .vPtr (some elemAfter)
              | .vPtr none => val
              | _ => elemAfter
            else val
          some (.ok (.cons pv outs, .cons elemUpd rest'))

/-- The traversal family at a given fuel level. -/
def engine : Nat → EngineFns
  | 0 => engineZero
  | fuel + 1 => engineStep (engine fuel)

/-- Method `validateFields` of the validator (see `engineStep`). -/
def validateFields (v : validator) (fuel : Nat) (strct : GoVal)
    (flds : GoFields) (path structPath : String) (opts : validationOpts) :
    Option (Except VErr (OutMapL × GoFields)) :=
  (engine fuel).validateFields v strct flds path structPath opts

/-- Method `processField` of the validator (see `engineStep`). -/
def processField (v : validator) (fuel : Nat) (strct : GoVal)
    (name tag : String) (value : GoVal) (path structPath : String)
    (opts : validationOpts) :
    Option (Except VErr (Option (String × OutVal) × GoVal)) :=
  (engine fuel).processField v strct name tag value path structPath opts

/-- Method `processFinalValue` of the validator (see `engineStep`). -/
def processFinalValue (v : validator) (fuel : Nat) (fs : fieldScope)
    (opts : validationOpts) : Option (Except VErr (OutVal × GoVal)) :=
  (engine fuel).processFinalValue v fs opts

/-- Method `processMapValue` of the validator (see `engineStep`). -/
def processMapValue (v : validator) (fuel : Nat) (fs : fieldScope)
    (entries : GoEntries) (opts : validationOpts) :
    Option (Except VErr (OutMapL × GoEntries)) :=
  (engine fuel).processMapValue v fs entries opts

/-- Method `processSliceValue` of the validator (see `engineStep`). -/
def processSliceValue (v : validator) (fuel : Nat) (fs : fieldScope)
    (xs : GoVals) (idx : Nat) (opts : validationOpts) :
    Option (Except VErr (OutListL × GoVals)) :=
  (engine fuel).processSliceValue v fs xs idx opts

/-- Decides whether a value is a pointer whose element has struct kind,
the shape `validate` accepts. -/
def isPointerToStruct : GoVal → Bool
  | .vPtr (some d) => kindOf d == .structK
  | _ => false

/-- Method `validate`: the entry point; rejects anything that is not a
pointer whose element is a struct, before any rule, transformation or
formatter runs, and otherwise hands the struct's fields to
`validateFields`.  The second result component is the (possibly written
back) record. -/
def validate (v : validator) (fuel : Nat) (data : GoVal)
    (opts : validationOpts) : Option (Except VErr (OutMapL × GoVal)) :=
  if kindOf data != .ptrK then
    some (.error (.simple "firevault: data must be a pointer to a struct"))
  else
    match data with
    | .vPtr (some (.vStruct tname flds)) =>
      match validateFields v fuel (.vStruct tname flds) flds "" "" opts with
      | none => none
      | some (.error e) => some (.error e)
      | some (.ok (m, flds')) => some (.ok (m, .vPtr (some (.vStruct tname flds'))))
    | .vPtr (some (.vTime t)) =>
      -- a `time.Time` element has kind `Struct`, so it passes the check; its
      -- fields carry no tags, so iterating them yields an empty mapping
      some (.ok (.nil, .vPtr (some (.vTime t))))
    | _ => some (.error (.simple "firevault: data must be a pointer to a struct"))

end Firevault

namespace Firevault

/-! ### Struct metadata cache (`cache.go`) -/

/-- Struct `structData`: name and per-field scopes of a parsed struct. -/
structure structData where
  name : String
  fields : List fieldScope

/-- Struct `structCache`: a `sync.Map` from a reflected struct type to its
parsed `structData`, modelled as an association list keyed by the struct
type name.  The only operations the cache defines are `get` and `set`. -/
def structCache : Type := List (String × structData)

/-- Method `get` of `structCache` (`sync.Map.Load`). -/
def structCache.get (sc : structCache) (structType : String) : Option structData :=
  List.lookup structType sc

/-- Method `set` of `structCache` (`sync.Map.Store`): replaces any previous
binding for the type. -/
def structCache.set (sc : structCache) (structType : String) (d : structData) :
    structCache :=
  assocSet sc structType d

/-- An operation issued against the cache.  The cache interface has no
delete, so these are the only two operation shapes. -/
inductive CacheOp where
  | load (structType : String)
  | store (structType : String) (d : structData)

/-- Applies one cache operation to the cache state; `load` leaves the state
unchanged. -/
def cacheStep (sc : structCache) : CacheOp → structCache
  | .load _ => sc
  | .store t d => sc.set t d

/-- Runs a sequence of cache operations (one interleaving of the operations
of concurrently executing builders and readers). -/
def cacheRun (sc : structCache) : List CacheOp → structCache
  | [] => sc
  | op :: ops => cacheRun (cacheStep sc op) ops

end Firevault

namespace Firevault

/-! ### Shared lemmas -/

/-- Literal form of the registry built by `newValidator`. -/
theorem newValidator_eq :
    newValidator =
      { validations :=
          [("required", ⟨validateRequired, true⟩),
           ("required_create", ⟨validateRequired, true⟩),
           ("required_update", ⟨validateRequired, true⟩),
           ("required_validate", ⟨validateRequired, true⟩),
           ("email", ⟨validateEmail, false⟩),
           ("max", ⟨validateMax, false⟩),
           ("min", ⟨validateMin, false⟩)],
        transformations :=
          [("uppercase", ⟨transformUppercase, false⟩),
           ("lowercase", ⟨transformLowercase, false⟩),
           ("trim_space", ⟨transformTrimSpace, false⟩)],
        errFormatters := [] } := rfl

/-- Unfolding of `List.lookup` at a cons cell. -/
theorem lookup_cons_unfold {α : Type} (k a : String) (b : α) (t : List (String × α)) :
    List.lookup k ((a, b) :: t) =
      (match k == a with
       | true => some b
       | false => List.lookup k t) := rfl

/-- Looking up the key just set by `assocSet` yields the new value. -/
theorem assocSet_lookup_self {α : Type} (l : List (String × α)) (k : String) (v : α) :
    (assocSet l k v).lookup k = some v := by
  induction l with
  | nil => simp [assocSet, lookup_cons_unfold]
  | cons p t ih =>
    obtain ⟨a, b⟩ := p
    by_cases ha : a = k
    · subst ha
      simp [assocSet, lookup_cons_unfold]
    · have hbeq : (k == a) = false := by
        simp only [beq_eq_false_iff_ne, ne_eq]
        exact fun he => ha he.symm
      simp [assocSet, ha, lookup_cons_unfold, hbeq, ih]

/-- Setting one key with `assocSet` leaves the others' lookups unchanged. -/
theorem assocSet_lookup_ne {α : Type} (l : List (String × α)) (k k' : String)
    (v : α) (hne : k' ≠ k) : (assocSet l k v).lookup k' = l.lookup k' := by
  have hbeq : (k' == k) = false := by
    simp only [beq_eq_false_iff_ne, ne_eq]
    exact hne
  induction l with
  | nil => simp [assocSet, lookup_cons_unfold, hbeq]
  | cons p t ih =>
    obtain ⟨a, b⟩ := p
    by_cases ha : a = k
    · subst ha
      simp [assocSet, lookup_cons_unfold, hbeq]
    · simp only [assocSet, if_neg ha, lookup_cons_unfold]
      cases k' == a with
      | true => rfl
      | false => exact ih

/-- Unfolding of `validateFields` at a field-list head with available
fuel. -/
theorem validateFields_succ_cons (v : validator) (n : Nat) (strct : GoVal)
    (name tag : String) (value : GoVal) (rest : GoFields)
    (p sp : String) (o : validationOpts) :
    validateFields v (n + 1) strct (GoFields.cons name tag value rest) p sp o =
      (match processField v n strct name tag value p sp o with
       | none => none
       | some (.error e) => some (.error e)
       | some (.ok (entry, value')) =>
         match validateFields v n strct rest p sp o with
         | none => none
         | some (.error e) => some (.error e)
         | some (.ok (m, rest')) =>
           some (.ok ((match entry with
             | some (nm, fv) => OutMapL.cons nm fv m
             | none => m), GoFields.cons name tag value' rest'))) := rfl

end Firevault
namespace Firevault

/-- Validation without `modifyOriginal` never changes the record: at every
engine level, each traversal function returns its input fields, value,
entries or elements unchanged on success. -/
theorem engine_no_mutation : ∀ n : Nat,
    (∀ v strct flds p sp (o : validationOpts) r flds',
       o.modifyOriginal = false →
       (engine n).validateFields v strct flds p sp o = some (.ok (r, flds')) →
       flds' = flds) ∧
    (∀ v strct name tag value p sp (o : validationOpts) r value',
       o.modifyOriginal = false →
       (engine n).processField v strct name tag value p sp o = some (.ok (r, value')) →
       value' = value) ∧
    (∀ v fs (o : validationOpts) r v',
       o.modifyOriginal = false →
       (engine n).processFinalValue v fs o = some (.ok (r, v')) →
       v' = fs.value) ∧
    (∀ v fs es (o : validationOpts) r es',
       o.modifyOriginal = false →
       (engine n).processMapValue v fs es o = some (.ok (r, es')) →
       es' = es) ∧
    (∀ v fs xs i (o : validationOpts) r xs',
       o.modifyOriginal = false →
       (engine n).processSliceValue v fs xs i o = some (.ok (r, xs')) →
       xs' = xs) := by
  intro n
  induction n with
  | zero =>
    refine ⟨?_, ?_, ?_, ?_, ?_⟩ <;> (intros; rename_i h; simp [engine, engineZero] at h)
  | succ n ih =>
    obtain ⟨ihVF, ihPF, ihFV, ihMV, ihSV⟩ := ih
    refine ⟨?_, ?_, ?_, ?_, ?_⟩
    · intro v strct flds p sp o r flds' hmo h
      cases flds with
      | nil =>
        simp [engine, engineStep] at h
        exact h.2.symm
      | cons name tag value rest =>
        simp only [engine, engineStep] at h
        split at h
        · exact absurd h (by simp)
        · exact absurd h (by simp)
        · rename_i entry value' hpf
          split at h
          · exact absurd h (by simp)
          · exact absurd h (by simp)
          · rename_i m rest' hvf
            have h1 := ihPF _ _ _ _ _ _ _ _ _ _ hmo hpf
            have h2 := ihVF _ _ _ _ _ _ _ _ hmo hvf
            simp only [Option.some.injEq, Except.ok.injEq, Prod.mk.injEq] at h
            rw [← h.2, h1, h2]
    · intro v strct name tag value p sp o r value' hmo h
      simp only [engine, engineStep] at h
      split at h
      · simp only [Option.some.injEq, Except.ok.injEq, Prod.mk.injEq] at h
        exact h.2.symm
      · split at h
        · exact absurd h (by simp)
        · split at h
          · simp only [Option.some.injEq, Except.ok.injEq, Prod.mk.injEq] at h
            exact h.2.symm
          · split at h
            · exact absurd h (by simp)
            · rename_i fsF setDone hruled
              split at h
              · exact absurd h (by simp)
              · exact absurd h (by simp)
              · rename_i finalValue vAfter hfv
                have hsd : setDone = false := by
                  split at hruled
                  · split at hruled
                    · exact absurd hruled (by simp)
                    · simp only [Except.ok.injEq, Prod.mk.injEq] at hruled
                      rw [← hruled.2, hmo]
                      simp
                  · simp only [Except.ok.injEq, Prod.mk.injEq] at hruled
                    exact hruled.2.symm
                simp only [Option.some.injEq, Except.ok.injEq, Prod.mk.injEq] at h
                rw [← h.2, hsd, hmo]
                simp
    · intro v fs o r v' hmo h
      simp only [engine, engineStep] at h
      split at h
      · split at h
        · simp only [Option.some.injEq, Except.ok.injEq, Prod.mk.injEq] at h
          exact h.2.symm
        · split at h
          · rename_i tname flds heqv
            split at h
            · exact absurd h (by simp)
            · exact absurd h (by simp)
            · rename_i m flds' hvf
              have h2 := ihVF _ _ _ _ _ _ _ _ hmo hvf
              simp only [Option.some.injEq, Except.ok.injEq, Prod.mk.injEq] at h
              rw [← h.2, h2, heqv]
          · simp only [Option.some.injEq, Except.ok.injEq, Prod.mk.injEq] at h
            exact h.2.symm
      · split at h
        · simp only [Option.some.injEq, Except.ok.injEq, Prod.mk.injEq] at h
          exact h.2.symm
        · split at h
          · rename_i entries heqv
            split at h
            · exact absurd h (by simp)
            · exact absurd h (by simp)
            · rename_i m entries' hmv
              have h2 := ihMV _ _ _ _ _ _ hmo hmv
              simp only [Option.some.injEq, Except.ok.injEq, Prod.mk.injEq] at h
              rw [← h.2, h2, heqv]
          · simp only [Option.some.injEq, Except.ok.injEq, Prod.mk.injEq] at h
            exact h.2.symm
      · split at h
        · simp only [Option.some.injEq, Except.ok.injEq, Prod.mk.injEq] at h
          exact h.2.symm
        · split at h
          · rename_i xs heqv
            split at h
            · exact absurd h (by simp)
            · exact absurd h (by simp)
            · rename_i outs xs' hsv
              have h2 := ihSV _ _ _ _ _ _ _ hmo hsv
              simp only [Option.some.injEq, Except.ok.injEq, Prod.mk.injEq] at h
              rw [← h.2, h2, heqv]
          · simp only [Option.some.injEq, Except.ok.injEq, Prod.mk.injEq] at h
            exact h.2.symm
      · simp only [Option.some.injEq, Except.ok.injEq, Prod.mk.injEq] at h
        exact h.2.symm
    · intro v fs es o r es' hmo h
      cases es with
      | nil =>
        simp [engine, engineStep] at h
        exact h.2.symm
      | cons key val rest =>
        simp only [engine, engineStep] at h
        split at h
        · exact absurd h (by simp)
        · exact absurd h (by simp)
        · rename_i pv elemAfter hfv
          split at h
          · exact absurd h (by simp)
          · exact absurd h (by simp)
          · rename_i m rest' hmv
            have h2 := ihMV _ _ _ _ _ _ hmo hmv
            simp only [Option.some.injEq, Except.ok.injEq, Prod.mk.injEq] at h
            rw [← h.2, h2]
    · intro v fs xs i o r xs' hmo h
      cases xs with
      | nil =>
        simp [engine, engineStep] at h
        exact h.2.symm
      | cons val rest =>
        simp only [engine, engineStep] at h
        split at h
        · exact absurd h (by simp)
        · exact absurd h (by simp)
        · rename_i pv elemAfter hfv
          split at h
          · exact absurd h (by simp)
          · exact absurd h (by simp)
          · rename_i outs rest' hsv
            have h2 := ihSV _ _ _ _ _ _ _ hmo hsv
            simp only [Option.some.injEq, Except.ok.injEq, Prod.mk.injEq] at h
            rw [← h.2, h2, hmo]
            simp

end Firevault
namespace Firevault

/-- Skip behaviour of `applyValidation`: a registered rule whose `runOnNil`
flag is false is not invoked on an absent/zero value; the call succeeds and
only records the rule name and parameter on the scope. -/
theorem applyValidation_skip (v : validator) (fs : fieldScope) (fe : fieldError)
    (rule : String) (w : valFnWrapper)
    (hlook : v.validations.lookup (cutEq rule).1 = some w)
    (hrun : w.runOnNil = false)
    (hval : hasValue fs.kind fs.value = false) :
    applyValidation v fs fe rule =
      .ok { fs with rule := (cutEq rule).1, param := (cutEq rule).2 } := by
  simp [applyValidation, hlook, hval, hrun]

/-- Failure behaviour of `applyValidation`: a registered rule that runs and
returns `false` produces the formatted field error (whose `param` component
the source sets to the rule name). -/
theorem applyValidation_false (v : validator) (fs : fieldScope) (fe : fieldError)
    (rule : String) (w : valFnWrapper)
    (hlook : v.validations.lookup (cutEq rule).1 = some w)
    (hskip : (!hasValue fs.kind fs.value && !w.runOnNil) = false)
    (hfn : w.fn { fs with rule := (cutEq rule).1, param := (cutEq rule).2 } = .ok false) :
    applyValidation v fs fe rule =
      .error (formatErr v { fe with rule := (cutEq rule).1, param := (cutEq rule).1 }) := by
  simp [applyValidation, hlook, hskip, hfn, formatErr]

/-- Skip behaviour of `applyTransformation`: a registered transformation
whose `runOnNil` flag is false is not invoked on an absent/zero value. -/
theorem applyTransformation_skip (v : validator) (fs : fieldScope) (fe : fieldError)
    (rule : String) (w : transFnWrapper)
    (hlook : v.transformations.lookup (strTrimPre rule "transform=") = some w)
    (hrun : w.runOnNil = false)
    (hval : hasValue fs.kind fs.value = false) :
    applyTransformation v fs fe rule =
      .ok { fs with rule := strTrimPre rule "transform=" } := by
  simp [applyTransformation, hlook, hval, hrun]

end Firevault
namespace Firevault

/-! ### Claims -/

/-- Claim C1 (amended).  When a transformation runs and its function returns
a value different from the field's current one, `applyTransformation`
replaces the field scope's value unconditionally, updating the scope's kind
and type to those of the returned value; no comparison of the returned
value's type descriptor with the previous one is made and no type-mismatch
error exists, whatever the registry `v` contains. -/
theorem c1_transformation_replaces_value_without_type_check
    (v : validator) (fs : fieldScope) (fe : fieldError) (rule : String)
    (w : transFnWrapper) (newValue : GoVal)
    (hlook : v.transformations.lookup (strTrimPre rule "transform=") = some w)
    (hval : hasValue fs.kind fs.value = true)
    (hfn : w.fn { fs with rule := strTrimPre rule "transform=" } = .ok newValue)
    (hne : beqVal newValue fs.value = false) :
    applyTransformation v fs fe rule =
      .ok { fs with rule := strTrimPre rule "transform=",
                    value := newValue, kind := kindOf newValue,
                    typ := typeOf newValue } := by
  simp [applyTransformation, hlook, hval, hfn, hne]

/-- Transformation returning an `int` for a `string` field, used to exhibit
the missing type check. -/
def toIntTransformation : TransformationFn := fun _ => .ok (.vInt 5)

/-- Registry holding only the type-changing transformation `to_int`. -/
def typeChangeValidator : validator :=
  { validations := [],
    transformations := [("to_int", ⟨toIntTransformation, false⟩)],
    errFormatters := [] }

/-- String-valued field scope for the C1 counterexample. -/
def strScope : fieldScope :=
  { strct := .vInvalid, field := "s", structField := "S",
    displayField := "S", path := "s", structPath := "S",
    value := .vStr "abc", kind := .stringK, typ := .tstring }

/-- Claim C1, counterexample.  A transformation whose output has a different
kind and type than the field's current value is accepted: the call returns
success with the value (and its kind/type descriptors) replaced, instead of
failing with a type-mismatch error as the claim states. -/
theorem c1_counterexample_type_change_accepted :
    applyTransformation typeChangeValidator strScope (feSnapshot strScope)
        "transform=to_int" =
      .ok { strScope with rule := "to_int", value := .vInt 5,
                          kind := .intK, typ := .tint } ∧
    kindOf (GoVal.vInt 5) ≠ kindOf strScope.value ∧
    typeOf (GoVal.vInt 5) ≠ typeOf strScope.value := by
  refine ⟨rfl, by decide, by decide⟩

/-- Claim C1, witness for the amended theorem at the concrete `to_int`
transformation on the string field scope. -/
theorem c1_transformation_replaces_value_without_type_check_witness :
    applyTransformation typeChangeValidator strScope (feSnapshot strScope)
        "transform=to_int" =
      .ok { strScope with rule := "to_int", value := .vInt 5,
                          kind := .intK, typ := .tint } :=
  c1_transformation_replaces_value_without_type_check typeChangeValidator
    strScope (feSnapshot strScope) "transform=to_int"
    ⟨toIntTransformation, false⟩ (.vInt 5) rfl rfl rfl rfl

end Firevault
namespace Firevault

/-- Record with a password field failing `min=6`, for claim C2. -/
def passwordRecord : GoVal :=
  .vPtr (some (.vStruct "User"
    (.cons "Password" "password,min=6" (.vStr "12345") .nil)))

/-- Claim C2.  Evaluating the engine at a failing parameterized rule
(`min=6` on the five-character string "12345") shows the constructed field
error carries the rule name in `rule` but also the rule name — not the
parameter string "6" — in `param`: `applyValidation` assigns
`fe.param = rule`, so `FieldError.Param()` returns "min" where its
documentation and the claim require "6". -/
theorem c2_field_error_param_is_rule_name :
    validate newValidator 3 passwordRecord { method := "create" } =
      some (.error (.fieldErr
        { field := "password", structField := "Password",
          displayField := "Password", path := "password",
          structPath := "Password", value := .vStr "12345",
          kind := .stringK, typ := .tstring,
          rule := "min", param := "min" })) ∧
    ("min" : String) ≠ "6" := by
  constructor
  · rw [newValidator_eq]
    rfl
  · decide

/-- The six-element tag slice of the C3 scenario. -/
def tagsSliceVal : GoVal :=
  .vSlice (some (.cons (.vStr "a") (.cons (.vStr "b") (.cons (.vStr "c")
    (.cons (.vStr "d") (.cons (.vStr "e") (.cons (.vStr "f") .nil)))))))

/-- Record holding the six-element slice under `tags,min=1,max=5,dive`. -/
def tagsRecord : GoVal :=
  .vPtr (some (.vStruct "TagsStruct"
    (.cons "Tags" "tags,min=1,max=5,dive" tagsSliceVal .nil)))

/-- The error produced on the C3 scenario. -/
def maxTagsError : VErr :=
  .fieldErr
    { field := "tags", structField := "Tags", displayField := "Tags",
      path := "tags", structPath := "Tags", value := tagsSliceVal,
      kind := .sliceK, typ := .tslice, rule := "max", param := "max" }

/-- Claim C3.  Validation is fail-fast.  First conjunct: inside a field's
rule chain, a dispatched (not method-skipped, non-transformation) rule whose
validation errors aborts the chain — the result is that error whatever rules
follow.  Second conjunct: a field whose processing errors aborts the
traversal — `validateFields` returns exactly that error, whatever fields
follow, and no mapping.  Third conjunct: on the record whose
`Tags` field holds the six strings `a`..`f` under `tags,min=1,max=5,dive`,
the engine
returns the single `max` error at path `tags` — the chain stopped before
diving into the elements. -/
theorem c3_fail_fast :
    (∀ (v : validator) (meth : String) (fs : fieldScope) (rule : String)
       (rest : List String) (e : VErr),
       (meth == "validate" && (strEndsWith rule "_create" || strEndsWith rule "_update")) = false →
       (meth == "create" && (strEndsWith rule "_validate" || strEndsWith rule "_update")) = false →
       (meth == "update" && (strEndsWith rule "_create" || strEndsWith rule "_validate")) = false →
       strStartsWith rule "transform=" = false →
       applyValidation v fs (feSnapshot fs) rule = .error e →
       applyRulesGo v meth fs (rule :: rest) = .error e) ∧
    (∀ (v : validator) (n : Nat) (strct : GoVal) (name tag : String)
       (value : GoVal) (rest : GoFields) (p sp : String)
       (o : validationOpts) (e : VErr),
       processField v n strct name tag value p sp o = some (.error e) →
       validateFields v (n + 1) strct (GoFields.cons name tag value rest) p sp o =
         some (.error e)) ∧
    validate newValidator 3 tagsRecord { method := "create" } =
      some (.error maxTagsError) := by
  refine ⟨?_, ?_, ?_⟩
  · intro v meth fs rule rest e h1 h2 h3 h4 happ
    simp [applyRulesGo, h1, h2, h3, h4, happ]
  · intro v n strct name tag value rest p sp o e h
    rw [validateFields_succ_cons, h]
  · rw [newValidator_eq]
    rfl

/-- A record whose `Tags` field fails `max=5` followed by a second field
that is never reached. -/
def tagsThenNameFields : GoFields :=
  .cons "Tags" "tags,min=1,max=5,dive" tagsSliceVal
    (.cons "Name" "name,required" (.vStr "") .nil)

/-- Claim C3, witness.  The fail-fast theorem applied at the concrete
scenario: the `Tags` field's processing fails with the `max` error, and the
traversal over the two-field record returns exactly that error — the second
field (whose `required` rule would also fail) is never processed. -/
theorem c3_fail_fast_witness :
    validateFields newValidator 3 (.vStruct "TagsStruct" tagsThenNameFields)
        tagsThenNameFields "" "" { method := "create" } =
      some (.error maxTagsError) := by
  refine (c3_fail_fast).2.1 newValidator 2 (.vStruct "TagsStruct" tagsThenNameFields)
    "Tags" "tags,min=1,max=5,dive" tagsSliceVal
    (.cons "Name" "name,required" (.vStr "") .nil) "" "" { method := "create" }
    maxTagsError ?_
  rw [newValidator_eq]
  rfl

end Firevault
namespace Firevault

/-- Claim C4.  Nil-skipping versus the `required` family.  First and second
conjuncts: during chain execution, a registered validation or transformation
entry whose `runOnNil` flag is false is skipped on an absent/zero value —
the call returns success without invoking the function, only recording the
rule name (and parameter) on the scope.  Third conjunct: the four
`required`-family rules are registered by `newValidator` with
`runOnNil = true`, so on an absent value they do run and fail with the
field error.  Fourth and fifth conjuncts: `applyRulesGo` dispatches
`required` under every method and each method-suffixed `required_<m>` under
its matching method, producing the failure. -/
theorem c4_run_on_nil_skip_and_required_runs :
    (∀ (v : validator) (fs : fieldScope) (fe : fieldError) (rule : String)
       (w : valFnWrapper),
       v.validations.lookup (cutEq rule).1 = some w →
       w.runOnNil = false →
       hasValue fs.kind fs.value = false →
       applyValidation v fs fe rule =
         .ok { fs with rule := (cutEq rule).1, param := (cutEq rule).2 }) ∧
    (∀ (v : validator) (fs : fieldScope) (fe : fieldError) (rule : String)
       (w : transFnWrapper),
       v.transformations.lookup (strTrimPre rule "transform=") = some w →
       w.runOnNil = false →
       hasValue fs.kind fs.value = false →
       applyTransformation v fs fe rule =
         .ok { fs with rule := strTrimPre rule "transform=" }) ∧
    (∀ (fs : fieldScope) (fe : fieldError) (rule : String),
       rule ∈ ["required", "required_create", "required_update", "required_validate"] →
       hasValue fs.kind fs.value = false →
       applyValidation newValidator fs fe rule =
         .error (.fieldErr { fe with rule := rule, param := rule })) ∧
    (∀ (fs : fieldScope) (meth : String),
       hasValue fs.kind fs.value = false →
       applyRulesGo newValidator meth fs ["required"] =
         .error (.fieldErr { feSnapshot fs with rule := "required", param := "required" })) ∧
    (∀ fs : fieldScope,
       hasValue fs.kind fs.value = false →
       (applyRulesGo newValidator "create" fs ["required_create"] =
          .error (.fieldErr { feSnapshot fs with rule := "required_create", param := "required_create" }) ∧
        applyRulesGo newValidator "update" fs ["required_update"] =
          .error (.fieldErr { feSnapshot fs with rule := "required_update", param := "required_update" }) ∧
        applyRulesGo newValidator "validate" fs ["required_validate"] =
          .error (.fieldErr { feSnapshot fs with rule := "required_validate", param := "required_validate" }))) := by
  have hreq : ∀ (fs : fieldScope) (fe : fieldError) (rule : String),
      rule ∈ ["required", "required_create", "required_update", "required_validate"] →
      hasValue fs.kind fs.value = false →
      applyValidation newValidator fs fe rule =
        .error (.fieldErr { fe with rule := rule, param := rule }) := by
    intro fs fe rule hrule hval
    simp only [List.mem_cons, List.not_mem_nil, or_false] at hrule
    rcases hrule with h | h | h | h <;> subst h <;>
      (rw [applyValidation_false newValidator fs fe _ ⟨validateRequired, true⟩
            (by rw [newValidator_eq]; rfl) (by simp)
            (by simp [validateRequired, hval])]
       rfl)
  refine ⟨?_, ?_, hreq, ?_, ?_⟩
  · intro v fs fe rule w hlook hrun hval
    exact applyValidation_skip v fs fe rule w hlook hrun hval
  · intro v fs fe rule w hlook hrun hval
    exact applyTransformation_skip v fs fe rule w hlook hrun hval
  · intro fs meth hval
    have happ := hreq fs (feSnapshot fs) "required" (by simp) hval
    have e1 : strEndsWith "required" "_create" = false := rfl
    have e2 : strEndsWith "required" "_update" = false := rfl
    have e3 : strEndsWith "required" "_validate" = false := rfl
    have e4 : strStartsWith "required" "transform=" = false := rfl
    simp [applyRulesGo, e1, e2, e3, e4, happ]
  · intro fs hval
    refine ⟨?_, ?_, ?_⟩
    · have happ := hreq fs (feSnapshot fs) "required_create" (by simp) hval
      have e1 : strEndsWith "required_create" "_validate" = false := rfl
      have e2 : strEndsWith "required_create" "_update" = false := rfl
      have e4 : strStartsWith "required_create" "transform=" = false := rfl
      simp [applyRulesGo, e1, e2, e4, happ]
    · have happ := hreq fs (feSnapshot fs) "required_update" (by simp) hval
      have e1 : strEndsWith "required_update" "_create" = false := rfl
      have e2 : strEndsWith "required_update" "_validate" = false := rfl
      have e4 : strStartsWith "required_update" "transform=" = false := rfl
      simp [applyRulesGo, e1, e2, e4, happ]
    · have happ := hreq fs (feSnapshot fs) "required_validate" (by simp) hval
      have e1 : strEndsWith "required_validate" "_create" = false := rfl
      have e2 : strEndsWith "required_validate" "_update" = false := rfl
      have e4 : strStartsWith "required_validate" "transform=" = false := rfl
      simp [applyRulesGo, e1, e2, e4, happ]

/-- Zero-valued integer field scope (an absent `age`), for the C4 and C5
witnesses. -/
def emptyAgeScope : fieldScope :=
  { strct := .vInvalid, field := "age", structField := "Age",
    displayField := "Age", path := "age", structPath := "Age",
    value := .vInt 0, kind := .intK, typ := .tint }

/-- Claim C4, witness.  At the zero-valued `age` field: the parameterized
`min=18` rule (registered with `runOnNil = false`) is skipped without error,
while `required` runs and fails. -/
theorem c4_run_on_nil_skip_and_required_runs_witness :
    applyValidation newValidator emptyAgeScope (feSnapshot emptyAgeScope) "min=18" =
      .ok { emptyAgeScope with rule := "min", param := "18" } ∧
    applyValidation newValidator emptyAgeScope (feSnapshot emptyAgeScope) "required" =
      .error (.fieldErr { feSnapshot emptyAgeScope with rule := "required", param := "required" }) := by
  constructor
  · exact c4_run_on_nil_skip_and_required_runs.1 newValidator emptyAgeScope
      (feSnapshot emptyAgeScope) "min=18" ⟨validateMin, false⟩
      (by rw [newValidator_eq]; rfl) rfl rfl
  · exact c4_run_on_nil_skip_and_required_runs.2.2.1 emptyAgeScope
      (feSnapshot emptyAgeScope) "required" (by simp) rfl

end Firevault
namespace Firevault

/-- Claim C5.  Omit-empty semantics.  First conjunct: `shouldSkipField` is
exactly the conjunction "some matching omit tag is present (plain
`omitempty` OR the active method's `omitempty_<m>` — either alone
suffices)", "the field's path is not on the allow-empty list", and "the
value is absent/zero"; in particular a zero-valued field whose path is
allow-listed is not skipped.  Second conjunct: a field for which
`shouldSkipField` holds is dropped by `processField` before any rule runs —
the result is success with no output entry and the untouched value, for
every registry.  Third conjunct: such a field contributes nothing to the
output mapping of `validateFields`. -/
theorem c5_omitempty_skip :
    (∀ (fs : fieldScope) (rules : List String) (o : validationOpts),
       shouldSkipField fs rules o =
         ((rules.contains "omitempty" || rules.contains ("omitempty_" ++ o.method)) &&
          !o.emptyFieldsAllowed.contains fs.path &&
          !hasValue fs.kind fs.value)) ∧
    (∀ (v : validator) (n : Nat) (strct : GoVal) (name tag : String)
       (value : GoVal) (p sp : String) (o : validationOpts),
       (tag = "" || tag = "-") = false →
       validateFieldType (buildFieldScope strct name tag value p sp).kind
         (buildFieldScope strct name tag value p sp).path = .ok () →
       shouldSkipField (buildFieldScope strct name tag value p sp) (parseTag tag) o = true →
       processField v (n + 1) strct name tag value p sp o = some (.ok (none, value))) ∧
    (∀ (v : validator) (n : Nat) (strct : GoVal) (name tag : String)
       (value : GoVal) (rest : GoFields) (p sp : String) (o : validationOpts)
       (m : OutMapL) (rest' : GoFields),
       processField v n strct name tag value p sp o = some (.ok (none, value)) →
       validateFields v n strct rest p sp o = some (.ok (m, rest')) →
       validateFields v (n + 1) strct (GoFields.cons name tag value rest) p sp o =
         some (.ok (m, GoFields.cons name tag value rest'))) := by
  refine ⟨?_, ?_, ?_⟩
  · intro fs rules o
    simp only [shouldSkipField]
    cases h1 : (rules.contains "omitempty" || rules.contains ("omitempty_" ++ o.method)) <;>
      cases h2 : o.emptyFieldsAllowed.contains fs.path <;>
        cases h3 : hasValue fs.kind fs.value <;> decide
  · intro v n strct name tag value p sp o htag hty hskip
    show processField v (n + 1) strct name tag value p sp o = some (.ok (none, value))
    simp [processField, engine, engineStep, htag, hty, hskip]
  · intro v n strct name tag value rest p sp o m rest' h1 h2
    rw [validateFields_succ_cons, h1, h2]

/-- Claim C5, witness.  At the zero-valued `age` field tagged
`age,omitempty,min=18`: the skip condition holds with an empty allow-list
(and the single `omitempty` tag — OR semantics), the field is dropped
without touching its rules, and the record's output mapping is empty; with
`age` on the allow-empty list the skip condition is false. -/
theorem c5_omitempty_skip_witness :
    shouldSkipField (buildFieldScope (.vStruct "User" .nil) "Age" "age,omitempty,min=18" (.vInt 0) "" "")
        (parseTag "age,omitempty,min=18") { method := "create" } = true ∧
    processField newValidator 2 (.vStruct "User" .nil) "Age" "age,omitempty,min=18"
        (.vInt 0) "" "" { method := "create" } = some (.ok (none, .vInt 0)) ∧
    validateFields newValidator 3 (.vStruct "User" .nil)
        (GoFields.cons "Age" "age,omitempty,min=18" (.vInt 0) .nil) "" ""
        { method := "create" } = some (.ok (.nil, .cons "Age" "age,omitempty,min=18" (.vInt 0) .nil)) ∧
    shouldSkipField (buildFieldScope (.vStruct "User" .nil) "Age" "age,omitempty,min=18" (.vInt 0) "" "")
        (parseTag "age,omitempty,min=18")
        { method := "create", emptyFieldsAllowed := ["age"] } = false := by
  have h2 := c5_omitempty_skip.2.1 newValidator 1 (.vStruct "User" .nil) "Age"
    "age,omitempty,min=18" (.vInt 0) "" "" { method := "create" } (by simp) rfl rfl
  have h3 := c5_omitempty_skip.2.2 newValidator 2 (.vStruct "User" .nil) "Age"
    "age,omitempty,min=18" (.vInt 0) GoFields.nil "" "" { method := "create" }
    OutMapL.nil GoFields.nil h2 rfl
  exact ⟨(c5_omitempty_skip.1 _ _ _).trans rfl, h2, h3,
    (c5_omitempty_skip.1 _ _ _).trans rfl⟩

end Firevault
namespace Firevault

/-- Claim C6.  Registration contract.  For `registerValidation`: an empty
name is rejected; a non-built-in name that matches a reserved built-in
structural rule name or contains a reserved character is rejected; a nil
implementation is rejected; a successful registration stores the wrapper in
the registry by map update; registering the same name twice keeps the
second, fully replacing the first.  The final four conjuncts state the same
contract for `registerTransformation`. -/
theorem c6_registration_contract :
    (∀ (v : validator) (f : Option ValidationFn) (b r : Bool),
       registerValidation v "" f b r =
         .error "firevault: validation function name cannot be empty") ∧
    (∀ (v : validator) (name : String) (f : Option ValidationFn) (r : Bool),
       name ≠ "" →
       (restrictedRules.contains name || containsAny name restrictedTagChars) = true →
       registerValidation v name f false r =
         .error "firevault: validation rule contains restricted characters or is the same as a built-in rule") ∧
    (∀ (v : validator) (name : String) (b r : Bool),
       name ≠ "" →
       (!b && (restrictedRules.contains name || containsAny name restrictedTagChars)) = false →
       registerValidation v name none b r =
         .error ("firevault: validation function " ++ name ++ " cannot be empty")) ∧
    (∀ (v : validator) (name : String) (f : ValidationFn) (b r : Bool),
       name ≠ "" →
       (!b && (restrictedRules.contains name || containsAny name restrictedTagChars)) = false →
       registerValidation v name (some f) b r =
         .ok { v with validations := assocSet v.validations name ⟨f, r⟩ }) ∧
    (∀ (v v₁ v₂ : validator) (name : String) (f₁ f₂ : ValidationFn)
       (b₁ b₂ r₁ r₂ : Bool),
       registerValidation v name (some f₁) b₁ r₁ = .ok v₁ →
       registerValidation v₁ name (some f₂) b₂ r₂ = .ok v₂ →
       v₂.validations.lookup name = some ⟨f₂, r₂⟩ ∧
       v₁.validations.lookup name = some ⟨f₁, r₁⟩) ∧
    (∀ (v : validator) (f : Option TransformationFn) (b r : Bool),
       registerTransformation v "" f b r =
         .error "firevault: transformation function name cannot be empty") ∧
    (∀ (v : validator) (name : String) (f : Option TransformationFn) (r : Bool),
       name ≠ "" →
       (restrictedRules.contains name || containsAny name restrictedTagChars) = true →
       registerTransformation v name f false r =
         .error "firevault: transformation rule contains restricted characters or is the same as a built-in rule") ∧
    (∀ (v : validator) (name : String) (b r : Bool),
       name ≠ "" →
       (!b && (restrictedRules.contains name || containsAny name restrictedTagChars)) = false →
       registerTransformation v name none b r =
         .error ("firevault: transformation function " ++ name ++ " cannot be empty")) ∧
    (∀ (v v₁ v₂ : validator) (name : String) (f₁ f₂ : TransformationFn)
       (b₁ b₂ r₁ r₂ : Bool),
       registerTransformation v name (some f₁) b₁ r₁ = .ok v₁ →
       registerTransformation v₁ name (some f₂) b₂ r₂ = .ok v₂ →
       v₂.transformations.lookup name = some ⟨f₂, r₂⟩ ∧
       v₁.transformations.lookup name = some ⟨f₁, r₁⟩) := by
  have hlen : ∀ name : String, name ≠ "" → ¬(name.length = 0) := by
    intro name hne hl
    apply hne
    cases name with
    | mk data =>
      cases data with
      | nil => rfl
      | cons c cs => simp [String.length] at hl
  refine ⟨?_, ?_, ?_, ?_, ?_, ?_, ?_, ?_, ?_⟩
  · intro v f b r
    rfl
  · intro v name f r hne hres
    unfold registerValidation
    rw [if_neg (hlen name hne), if_pos (show (!false && (restrictedRules.contains name || containsAny name restrictedTagChars)) = true by rw [Bool.not_false, Bool.true_and]; exact hres)]
  · intro v name b r hne hskip
    unfold registerValidation
    rw [if_neg (hlen name hne), if_neg (show ¬((!b && (restrictedRules.contains name || containsAny name restrictedTagChars)) = true) by rw [hskip]; exact Bool.false_ne_true)]
  · intro v name f b r hne hskip
    unfold registerValidation
    rw [if_neg (hlen name hne), if_neg (show ¬((!b && (restrictedRules.contains name || containsAny name restrictedTagChars)) = true) by rw [hskip]; exact Bool.false_ne_true)]
  · intro v v₁ v₂ name f₁ f₂ b₁ b₂ r₁ r₂ h₁ h₂
    unfold registerValidation at h₁ h₂
    split at h₁
    · exact absurd h₁ (by simp)
    · split at h₁
      · exact absurd h₁ (by simp)
      · simp only [Except.ok.injEq] at h₁
        split at h₂
        · exact absurd h₂ (by simp)
        · split at h₂
          · exact absurd h₂ (by simp)
          · simp only [Except.ok.injEq] at h₂
            rw [← h₂, ← h₁]
            exact ⟨assocSet_lookup_self _ _ _, assocSet_lookup_self _ _ _⟩
  · intro v f b r
    rfl
  · intro v name f r hne hres
    unfold registerTransformation
    rw [if_neg (hlen name hne), if_pos (show (!false && (restrictedRules.contains name || containsAny name restrictedTagChars)) = true by rw [Bool.not_false, Bool.true_and]; exact hres)]
  · intro v name b r hne hskip
    unfold registerTransformation
    rw [if_neg (hlen name hne), if_neg (show ¬((!b && (restrictedRules.contains name || containsAny name restrictedTagChars)) = true) by rw [hskip]; exact Bool.false_ne_true)]
  · intro v v₁ v₂ name f₁ f₂ b₁ b₂ r₁ r₂ h₁ h₂
    unfold registerTransformation at h₁ h₂
    split at h₁
    · exact absurd h₁ (by simp)
    · split at h₁
      · exact absurd h₁ (by simp)
      · simp only [Except.ok.injEq] at h₁
        split at h₂
        · exact absurd h₂ (by simp)
        · split at h₂
          · exact absurd h₂ (by simp)
          · simp only [Except.ok.injEq] at h₂
            rw [← h₂, ← h₁]
            exact ⟨assocSet_lookup_self _ _ _, assocSet_lookup_self _ _ _⟩

end Firevault

namespace Firevault

/-- Always-true validation used by the C6 witness. -/
def valTrueFn : ValidationFn := fun _ => .ok true

/-- Always-false validation used by the C6 witness. -/
def valFalseFn : ValidationFn := fun _ => .ok false

/-- Registry after registering `my_rule` once. -/
def regOnce : validator :=
  { newValidator with
    validations := assocSet newValidator.validations "my_rule" ⟨valTrueFn, true⟩ }

/-- Registry after registering `my_rule` a second time. -/
def regTwice : validator :=
  { regOnce with
    validations := assocSet regOnce.validations "my_rule" ⟨valFalseFn, false⟩ }

/-- Claim C6, witness.  The registration contract applied at concrete
inputs: empty name, the reserved structural name `dive`, a name with the
reserved character `.`, a nil implementation, and a repeated registration
of `my_rule` whose second wrapper wins. -/
theorem c6_registration_contract_witness :
    registerValidation newValidator "" none false false =
      .error "firevault: validation function name cannot be empty" ∧
    registerValidation newValidator "dive" (some valTrueFn) false false =
      .error "firevault: validation rule contains restricted characters or is the same as a built-in rule" ∧
    registerValidation newValidator "my.rule" (some valTrueFn) false false =
      .error "firevault: validation rule contains restricted characters or is the same as a built-in rule" ∧
    registerValidation newValidator "nil_rule" none false false =
      .error ("firevault: validation function " ++ "nil_rule" ++ " cannot be empty") ∧
    (regTwice.validations.lookup "my_rule" = some ⟨valFalseFn, false⟩ ∧
     regOnce.validations.lookup "my_rule" = some ⟨valTrueFn, true⟩) ∧
    registerTransformation newValidator "" none false false =
      .error "firevault: transformation function name cannot be empty" := by
  refine ⟨c6_registration_contract.1 newValidator none false false,
    c6_registration_contract.2.1 newValidator "dive" (some valTrueFn) false
      (by decide) rfl,
    c6_registration_contract.2.1 newValidator "my.rule" (some valTrueFn) false
      (by decide) rfl,
    c6_registration_contract.2.2.1 newValidator "nil_rule" false false
      (by decide) rfl,
    c6_registration_contract.2.2.2.2.1 newValidator regOnce regTwice "my_rule"
      valTrueFn valFalseFn false false true false rfl rfl,
    c6_registration_contract.2.2.2.2.2.1 newValidator none false false⟩

end Firevault
namespace Firevault

/-- Claim C7.  Formatter chain.  First conjunct: with no formatter, or when
every registered formatter returns nil, `formatErrGo` returns the
structured field error itself.  Second conjunct: the first formatter
returning a non-nil error short-circuits the rest, and its error is
returned unchanged.  Third conjunct: a failed validation rule routes its
field error (with the rule name recorded) through `formatErr` over the
registered chain. -/
theorem c7_error_formatter_chain :
    (∀ (fmts : List ErrorFormatterFn) (fe : fieldError),
       (∀ f ∈ fmts, f fe = none) → formatErrGo fmts fe = .fieldErr fe) ∧
    (∀ (pre post : List ErrorFormatterFn) (f : ErrorFormatterFn)
       (fe : fieldError) (msg : String),
       (∀ g ∈ pre, g fe = none) → f fe = some msg →
       formatErrGo (pre ++ f :: post) fe = .simple msg) ∧
    (∀ (v : validator) (fs : fieldScope) (fe : fieldError) (rule : String)
       (w : valFnWrapper),
       v.validations.lookup (cutEq rule).1 = some w →
       (!hasValue fs.kind fs.value && !w.runOnNil) = false →
       w.fn { fs with rule := (cutEq rule).1, param := (cutEq rule).2 } = .ok false →
       applyValidation v fs fe rule =
         .error (formatErr v { fe with rule := (cutEq rule).1, param := (cutEq rule).1 })) := by
  refine ⟨?_, ?_, ?_⟩
  · intro fmts fe hnil
    induction fmts with
    | nil => rfl
    | cons f rest ih =>
      have hf : f fe = none := hnil f (List.mem_cons_self f rest)
      simp only [formatErrGo, hf]
      exact ih (fun g hg => hnil g (List.mem_cons_of_mem f hg))
  · intro pre post f fe msg hnil hf
    induction pre with
    | nil =>
      simp only [List.nil_append, formatErrGo, hf]
    | cons g rest ih =>
      have hg : g fe = none := hnil g (List.mem_cons_self g rest)
      simp only [List.cons_append, formatErrGo, hg]
      exact ih (fun g' hg' => hnil g' (List.mem_cons_of_mem g hg'))
  · intro v fs fe rule w hlook hskip hfn
    exact applyValidation_false v fs fe rule w hlook hskip hfn

/-- Formatter returning nil, used by the C7 witness. -/
def nilFormatter : ErrorFormatterFn := fun _ => none

/-- Formatter producing a custom message, used by the C7 witness. -/
def minFormatter : ErrorFormatterFn := fun fe =>
  if fe.rule == "min" then some (fe.displayField ++ " is too short") else none

/-- Formatter that is never reached, used by the C7 witness. -/
def unreachedFormatter : ErrorFormatterFn := fun _ => some "unreached"

/-- Field error of a failed `min` rule at the password field. -/
def minPasswordError : fieldError :=
  { field := "password", structField := "Password",
    displayField := "Password", path := "password", structPath := "Password",
    value := .vStr "12345", kind := .stringK, typ := .tstring,
    rule := "min", param := "min" }

/-- Claim C7, witness.  At a concrete chain: with no formatter the field
error is returned as is; with a nil formatter followed by a matching one
followed by a further formatter, the second formatter's error is returned
and the third is never consulted. -/
theorem c7_error_formatter_chain_witness :
    formatErrGo [] minPasswordError = .fieldErr minPasswordError ∧
    formatErrGo [nilFormatter] minPasswordError = .fieldErr minPasswordError ∧
    formatErrGo [nilFormatter, minFormatter, unreachedFormatter] minPasswordError =
      .simple "Password is too short" := by
  refine ⟨c7_error_formatter_chain.1 [] minPasswordError (by intro f hf; simp at hf),
    c7_error_formatter_chain.1 [nilFormatter] minPasswordError ?_,
    c7_error_formatter_chain.2.1 [nilFormatter] [unreachedFormatter] minFormatter
      minPasswordError "Password is too short" ?_ rfl⟩
  · intro f hf
    simp only [List.mem_singleton] at hf
    rw [hf]
    rfl
  · intro f hf
    simp only [List.mem_singleton] at hf
    rw [hf]
    rfl

end Firevault
namespace Firevault

/-- Claim C8.  Idempotence on already-valid data.  Without the opt-in
write-back (`modifyOriginal = false`, so the input record is not mutated —
see `engine_no_mutation`), a successful validation leaves the record
unchanged, and a second call on that record with the same options returns
the identical output mapping. -/
theorem c8_validate_idempotent (v : validator) (fuel : Nat) (rec : GoVal)
    (o : validationOpts) (m : OutMapL) (rec₂ : GoVal)
    (hmo : o.modifyOriginal = false)
    (h : validate v fuel rec o = some (.ok (m, rec₂))) :
    rec₂ = rec ∧ validate v fuel rec₂ o = some (.ok (m, rec₂)) := by
  unfold validate at h
  split at h
  · exact absurd h (by simp)
  · split at h
    · rename_i tname flds hnp
      split at h
      · exact absurd h (by simp)
      · exact absurd h (by simp)
      · rename_i m' flds' hvf
        have hflds : flds' = flds :=
          (engine_no_mutation fuel).1 v (.vStruct tname flds) flds "" "" o m' flds' hmo hvf
        simp only [Option.some.injEq, Except.ok.injEq, Prod.mk.injEq] at h
        obtain ⟨hm, hrec⟩ := h
        subst hflds
        constructor
        · rw [← hrec]
        · rw [← hrec]
          unfold validate
          simp only [hvf, hm]
          rfl
    · rename_i t
      simp only [Option.some.injEq, Except.ok.injEq, Prod.mk.injEq] at h
      obtain ⟨hm, hrec⟩ := h
      constructor
      · rw [← hrec]
      · rw [← hrec]
        unfold validate
        simp only [← hm]
        rfl
    · exact absurd h (by simp)

/-- Valid one-field record for the C8 witness. -/
def nameRecord : GoVal :=
  .vPtr (some (.vStruct "User"
    (.cons "Name" "name,required,min=3" (.vStr "Bob") .nil)))

/-- Claim C8, witness.  On the valid record with `Name = "Bob"` under
`create`, validation succeeds with the mapping `name = Bob`, the record is
returned unchanged, and the repeated call yields the identical mapping. -/
theorem c8_validate_idempotent_witness :
    nameRecord = nameRecord ∧
    validate newValidator 4 nameRecord { method := "create" } =
      some (.ok (.cons "name" (.prim (.vStr "Bob")) .nil, nameRecord)) := by
  have h : validate newValidator 4 nameRecord { method := "create" } =
      some (.ok (.cons "name" (.prim (.vStr "Bob")) .nil, nameRecord)) := by
    rw [newValidator_eq]
    rfl
  have h2 := c8_validate_idempotent newValidator 4 nameRecord
    { method := "create" } (.cons "name" (.prim (.vStr "Bob")) .nil) nameRecord
    rfl h
  exact ⟨h2.1, h2.2⟩

end Firevault
namespace Firevault

/-- Claim C9.  Cache permanence.  First conjunct: a hit right after a store
returns the stored metadata unchanged.  Second conjunct: the cache's only
operations being `load` and `store` (the `CacheOp` type has no delete), if
every store for a type — by however many concurrent builders, in any
interleaving — stores the value the deterministic builder computes for that
type, then once the type is stored (or already present) its observable
metadata is that value, permanently. -/
theorem c9_cache_constant_after_store :
    (∀ (sc : structCache) (t : String) (d : structData),
       (sc.set t d).get t = some d) ∧
    (∀ (build : String → structData) (ops : List CacheOp) (sc : structCache)
       (t : String),
       (∀ d, CacheOp.store t d ∈ ops → d = build t) →
       (sc.get t = some (build t) ∨ (∃ d, CacheOp.store t d ∈ ops)) →
       (cacheRun sc ops).get t = some (build t)) := by
  constructor
  · intro sc t d
    exact assocSet_lookup_self sc t d
  · intro build ops
    induction ops with
    | nil =>
      intro sc t hall hstart
      rcases hstart with h | ⟨d, hd⟩
      · exact h
      · simp at hd
    | cons op rest ih =>
      intro sc t hall hstart
      cases op with
      | load t' =>
        refine ih (cacheStep sc (.load t')) t
          (fun d hd => hall d (List.mem_cons_of_mem _ hd)) ?_
        rcases hstart with h | ⟨d, hd⟩
        · exact Or.inl h
        · rcases List.mem_cons.mp hd with heq | hmem
          · exact CacheOp.noConfusion heq
          · exact Or.inr ⟨d, hmem⟩
      | store t' d =>
        by_cases ht : t' = t
        · subst ht
          have hd : d = build t' := hall d (List.mem_cons_self _ _)
          refine ih (cacheStep sc (.store t' d)) t'
            (fun d' hd' => hall d' (List.mem_cons_of_mem _ hd')) ?_
          left
          show (sc.set t' d).get t' = some (build t')
          rw [hd]
          exact assocSet_lookup_self sc t' (build t')
        · refine ih (cacheStep sc (.store t' d)) t
            (fun d' hd' => hall d' (List.mem_cons_of_mem _ hd')) ?_
          rcases hstart with h | ⟨d', hd'⟩
          · left
            show (sc.set t' d).get t = some (build t)
            rw [show (sc.set t' d).get t = sc.get t from
              assocSet_lookup_ne sc t' t d (fun he => ht he.symm)]
            exact h
          · rcases List.mem_cons.mp hd' with heq | hmem
            · injection heq with h1 h2
              exact absurd h1.symm ht
            · exact Or.inr ⟨d', hmem⟩

/-- Metadata stored for the `User` type by the C9 witness. -/
def userMeta : structData := { name := "users", fields := [] }

/-- Claim C9, witness.  Interleaving two builders' stores of the same
computed metadata with loads: every read after the first store observes the
same value. -/
theorem c9_cache_constant_after_store_witness :
    (structCache.set ([] : structCache) "User" userMeta).get "User" = some userMeta ∧
    (cacheRun ([] : structCache)
        [.store "User" userMeta, .load "User", .store "User" userMeta]).get "User" =
      some userMeta := by
  constructor
  · exact c9_cache_constant_after_store.1 [] "User" userMeta
  · refine c9_cache_constant_after_store.2 (fun _ => userMeta)
      [.store "User" userMeta, .load "User", .store "User" userMeta] [] "User"
      ?_ (Or.inr ⟨userMeta, by simp⟩)
    intro d hd
    rcases List.mem_cons.mp hd with h | hd2
    · injection h
    · rcases List.mem_cons.mp hd2 with h | hd3
      · exact CacheOp.noConfusion h
      · rcases List.mem_cons.mp hd3 with h | hd4
        · injection h
        · simp at hd4

/-- Claim C10.  Inputs that are not a pointer to a struct — not a pointer
at all, a nil pointer, or a pointer to a non-struct — make `validate`
return no mapping and exactly the error
`firevault: data must be a pointer to a struct`, for every registry (so no
rule, transformation or formatter can have run) and every fuel (the
rejection happens before the traversal; in this total model no crash is
possible). -/
theorem c10_validate_rejects_non_struct_pointer
    (v : validator) (fuel : Nat) (data : GoVal) (o : validationOpts)
    (h : isPointerToStruct data = false) :
    validate v fuel data o =
      some (.error (.simple "firevault: data must be a pointer to a struct")) := by
  cases data with
  | vPtr p =>
    cases p with
    | none => rfl
    | some d =>
      cases d with
      | vStruct tname flds => simp [isPointerToStruct, kindOf] at h
      | vTime t => simp [isPointerToStruct, kindOf] at h
      | vStr s => rfl
      | vInt n => rfl
      | vBool b => rfl
      | vPtr q => rfl
      | vSlice xs => rfl
      | vMap m => rfl
      | vChan => rfl
      | vFunc => rfl
      | vInvalid => rfl
  | vStr s => rfl
  | vInt n => rfl
  | vBool b => rfl
  | vTime t => rfl
  | vSlice xs => rfl
  | vMap m => rfl
  | vStruct tname flds => rfl
  | vChan => rfl
  | vFunc => rfl
  | vInvalid => rfl

/-- Claim C10, witness.  The rejection applied at a plain string, a nil
pointer, and a pointer to an integer, with fuel zero and an empty
registry — the error precedes any rule execution. -/
theorem c10_validate_rejects_non_struct_pointer_witness :
    validate { validations := [], transformations := [], errFormatters := [] } 0
        (.vStr "nope") { method := "create" } =
      some (.error (.simple "firevault: data must be a pointer to a struct")) ∧
    validate newValidator 9 (.vPtr none) { method := "update" } =
      some (.error (.simple "firevault: data must be a pointer to a struct")) ∧
    validate newValidator 9 (.vPtr (some (.vInt 3))) { method := "validate" } =
      some (.error (.simple "firevault: data must be a pointer to a struct")) :=
  ⟨c10_validate_rejects_non_struct_pointer _ 0 (.vStr "nope") _ rfl,
   c10_validate_rejects_non_struct_pointer newValidator 9 (.vPtr none) _ rfl,
   c10_validate_rejects_non_struct_pointer newValidator 9 (.vPtr (some (.vInt 3))) _ rfl⟩

end Firevault
